import Mathlib

/-
Verification of the heat-kernel module (`lapy/Heat.py`) of the LaPy
repository.

The module has three functions:

  * `diagonal(t, x, evecs, evals, n)` — spectral evaluation of the heat
    kernel diagonal `K(t, p, p)` at queried vertex indices `x` and times
    `t`, truncated to the first `n` eigenpairs;
  * `kernel(t, vfix, evecs, evals, n)` — spectral evaluation of the heat
    kernel column `K_t(·, vfix)` over all vertices;
  * `diffusion(geometry, vids, m, aniso, use_cholmod)` — one backward
    Euler step of heat diffusion, solving `(M + t K) x = b0` with
    `t = m * avg_edge_length^2`, dispatching to a Cholesky or an LU
    factorization provider.

Two embeddings are developed below.

The first works over `Fin`-indexed real matrices and mirrors the numpy
expression of `diagonal` entry by entry: slicing `[0:n]` becomes
`Fin.castLE`, fancy row indexing `evecs[x, :]` becomes composition with
`x`, the elementwise array product becomes `hadam`,
`np.exp(-np.matmul(evals[0:n], t))` of a column vector against a row
vector becomes the elementwise exponential of the outer product, and
`np.matmul` becomes `Matrix` multiplication.  Machine floats are
modelled as real numbers.

The second embedding (`diagonalNp`, `kernelNp`) works over plain lists
and keeps the operational behaviour of numpy: a slice `[0:n]` silently
clips at the array length, fancy indexing with an out-of-range index
fails, `np.matmul` fails when the inner dimensions disagree, and the
elementwise product of a 2-D array with a 1-D array broadcasts along the
last axis (`npMulRow1D`).  It settles the error-policy claims.

`kernel` is treated only operationally, because its elementwise product
`np.exp(np.matmul(-evals[0:n], t)) * evecs[vfix, 0:n]` multiplies an
`(n, T)` array by an `(n,)`-shaped one: numpy aligns the `(n,)` axis
with the last (time) axis, so for multiple time values the call raises a
broadcast error unless `T = n`, and at `T = n` it scales column `k` by
`evecs[vfix, k]` instead of scaling row `j` by `evecs[vfix, j]` — not
the per-time kernel column the docstring of the source (rows: vertices,
cols: times, with the MATLAB `repmat` comment showing the intended
row scaling) promises.  The documented formula is computed only when a
single time value is passed as a 1-D array, where every shape involved
collapses to a vector.

`diffusion` is embedded as `diffusionT`, which returns the list of calls
made to the external collaborators (matrix assembly and the two
factorization strategies) next to its result, so that ordering and
precision claims about those calls can be stated.  The collaborators
themselves (the finite-element `Solver`, the geometry object, the
optional sparse-Cholesky capability and the LU provider) are outside
this module and are modelled from the spec as parameters.
-/

namespace LapyHeat

open Matrix

/-- Elementwise product of two equally shaped matrices: the numpy `*` on
two arrays of the same shape (no broadcasting needed).  In `diagonal` it
is applied to an array with itself, squaring every entry. -/
def hadam {X n : ℕ} (A B : Matrix (Fin X) (Fin n) ℝ) : Matrix (Fin X) (Fin n) ℝ :=
  fun i j => A i j * B i j

/-- The column slice `A[:, 0:n]` of a matrix with `N ≥ n` columns. -/
def sliceCols {V N : ℕ} (A : Matrix (Fin V) (Fin N) ℝ) (n : ℕ) (hn : n ≤ N) :
    Matrix (Fin V) (Fin n) ℝ :=
  fun p j => A p (Fin.castLE hn j)

/-- The slice `v[0:n]` of a vector of length `N ≥ n`. -/
def sliceVec {N : ℕ} (v : Fin N → ℝ) (n : ℕ) (hn : n ≤ N) : Fin n → ℝ :=
  fun j => v (Fin.castLE hn j)

/-- Fancy row indexing `A[x, :]`: row `i` of the result is row `x i` of `A`. -/
def rowsAt {V N X : ℕ} (A : Matrix (Fin V) (Fin N) ℝ) (x : Fin X → Fin V) :
    Matrix (Fin X) (Fin N) ℝ :=
  fun i j => A (x i) j

/-- The matrix `np.exp(-np.matmul(evals, t))` for a column vector of
eigenvalues against a row vector of times: entry `(j, k)` is
`exp (-(evals j * t k))`. -/
noncomputable def expOuter {n T : ℕ} (evals : Fin n → ℝ) (t : Fin T → ℝ) :
    Matrix (Fin n) (Fin T) ℝ :=
  fun j k => Real.exp (-(evals j * t k))

/-- `Heat.diagonal`: translation of
`h = np.matmul(evecs[x, 0:n] * evecs[x, 0:n], np.exp(-np.matmul(evals[0:n], t)))`. -/
noncomputable def diagonal {T X V N : ℕ} (t : Fin T → ℝ) (x : Fin X → Fin V)
    (evecs : Matrix (Fin V) (Fin N) ℝ) (evals : Fin N → ℝ) (n : ℕ) (hn : n ≤ N) :
    Matrix (Fin X) (Fin T) ℝ :=
  hadam (sliceCols (rowsAt evecs x) n hn) (sliceCols (rowsAt evecs x) n hn) *
    expOuter (sliceVec evals n hn) t

/-- Entry formula for `diagonal`. -/
theorem diagonal_apply {T X V N : ℕ} (t : Fin T → ℝ) (x : Fin X → Fin V)
    (evecs : Matrix (Fin V) (Fin N) ℝ) (evals : Fin N → ℝ) (n : ℕ) (hn : n ≤ N)
    (i : Fin X) (k : Fin T) :
    diagonal t x evecs evals n hn i k =
      ∑ j : Fin n, evecs (x i) (Fin.castLE hn j) ^ 2 *
        Real.exp (-(evals (Fin.castLE hn j) * t k)) := by
  unfold diagonal hadam sliceCols sliceVec rowsAt expOuter
  rw [Matrix.mul_apply]
  exact Finset.sum_congr rfl fun j _ => by ring

/-- Claim C1: for every time value `t k`, every queried vertex index
`x i`, and every truncation order `n` with `1 ≤ n ≤ N`, the entry of
`diagonal t x evecs evals n` in the row for `i` and the column for `k`
equals `∑ j < n, evecs (x i) j ^ 2 * exp (-(evals j * t k))`; the result
has one row per entry of `x` and one column per entry of `t` (its type
is `Matrix (Fin X) (Fin T) ℝ`). -/
theorem diagonal_entry_spec {T X V N : ℕ} (t : Fin T → ℝ) (x : Fin X → Fin V)
    (evecs : Matrix (Fin V) (Fin N) ℝ) (evals : Fin N → ℝ) (n : ℕ)
    (h1 : 1 ≤ n) (hn : n ≤ N) (i : Fin X) (k : Fin T) :
    diagonal t x evecs evals n hn i k =
      ∑ j : Fin n, evecs (x i) (Fin.castLE hn j) ^ 2 *
        Real.exp (-(evals (Fin.castLE hn j) * t k)) :=
  diagonal_apply t x evecs evals n hn i k

/-- Witness for C1 at `T = X = V = N = n = 1` with all data equal to `1`. -/
theorem diagonal_entry_spec_witness :
    (1 ≤ 1 ∧ 1 ≤ 1) ∧
      diagonal (fun _ : Fin 1 => (1 : ℝ)) (fun _ : Fin 1 => (0 : Fin 1))
        (fun _ _ => (1 : ℝ)) (fun _ => (1 : ℝ)) 1 le_rfl 0 0 =
      ∑ _j : Fin 1, (1 : ℝ) ^ 2 * Real.exp (-(1 * 1)) :=
  ⟨⟨le_rfl, le_rfl⟩,
    diagonal_entry_spec (fun _ : Fin 1 => (1 : ℝ)) (fun _ : Fin 1 => (0 : Fin 1))
      (fun _ _ => (1 : ℝ)) (fun _ => (1 : ℝ)) 1 le_rfl le_rfl 0 0⟩

/-- Claim C10: every entry of `diagonal` is non-negative, regardless of
the signs of `evals` or `evecs`, since each summand is a squared
eigenvector entry times a positive exponential. -/
theorem diagonal_nonneg {T X V N : ℕ} (t : Fin T → ℝ) (x : Fin X → Fin V)
    (evecs : Matrix (Fin V) (Fin N) ℝ) (evals : Fin N → ℝ) (n : ℕ)
    (h1 : 1 ≤ n) (hn : n ≤ N) (i : Fin X) (k : Fin T) :
    0 ≤ diagonal t x evecs evals n hn i k := by
  rw [diagonal_apply]
  exact Finset.sum_nonneg fun j _ =>
    mul_nonneg (sq_nonneg _) (Real.exp_nonneg _)

/-- Witness for C10 at `T = X = V = N = n = 1` with a negative
eigenvalue and a negative eigenvector entry. -/
theorem diagonal_nonneg_witness :
    (1 ≤ 1 ∧ 1 ≤ 1) ∧
      0 ≤ diagonal (fun _ : Fin 1 => (1 : ℝ)) (fun _ : Fin 1 => (0 : Fin 1))
        (fun _ _ => (-2 : ℝ)) (fun _ => (-1 : ℝ)) 1 le_rfl 0 0 :=
  ⟨⟨le_rfl, le_rfl⟩,
    diagonal_nonneg (fun _ : Fin 1 => (1 : ℝ)) (fun _ : Fin 1 => (0 : Fin 1))
      (fun _ _ => (-2 : ℝ)) (fun _ => (-1 : ℝ)) 1 le_rfl le_rfl 0 0⟩

/-- Counterexample to claim C7 as stated: with eigenvalue set `{1}`
(containing a positive eigenvalue), an eigenvector whose queried row is
zero, times `t = (1, 2)` with `0 < 1 < 2`, the diagonal entry at the
larger time is not strictly smaller than at the smaller time (both are
`0`). -/
theorem diagonal_strict_decay_cex :
    (0 : ℝ) < 1 + ((0 : Fin 2).val : ℝ) ∧
      (1 + ((0 : Fin 2).val : ℝ)) < 1 + ((1 : Fin 2).val : ℝ) ∧
      ¬ diagonal (fun k : Fin 2 => 1 + (k.val : ℝ)) (fun _ : Fin 1 => (0 : Fin 1))
          (fun _ _ => (0 : ℝ)) (fun _ => (1 : ℝ)) 1 le_rfl 0 1 <
        diagonal (fun k : Fin 2 => 1 + (k.val : ℝ)) (fun _ : Fin 1 => (0 : Fin 1))
          (fun _ _ => (0 : ℝ)) (fun _ => (1 : ℝ)) 1 le_rfl 0 0 := by
  refine ⟨by norm_num, by norm_num, ?_⟩
  rw [diagonal_apply, diagonal_apply]
  simp

/-- Claim C7, amended: the entries of `diagonal` are strictly decreasing
in `t` provided the eigenvalues are non-negative and, for the queried
vertex, some eigenpair among the first `n` has a positive eigenvalue and
a non-zero eigenvector entry at that vertex; without the eigenvector
condition the entry can be constant in `t`. -/
theorem diagonal_strict_decay {T X V N : ℕ} (t : Fin T → ℝ) (x : Fin X → Fin V)
    (evecs : Matrix (Fin V) (Fin N) ℝ) (evals : Fin N → ℝ) (n : ℕ) (hn : n ≤ N)
    (hnonneg : ∀ j, 0 ≤ evals j) (i : Fin X) (k1 k2 : Fin T)
    (ht1 : 0 < t k1) (h12 : t k1 < t k2)
    (hwit : ∃ j : Fin n, 0 < evals (Fin.castLE hn j) ∧
      evecs (x i) (Fin.castLE hn j) ≠ 0) :
    diagonal t x evecs evals n hn i k2 < diagonal t x evecs evals n hn i k1 := by
  obtain ⟨j0, hpos, hne⟩ := hwit
  rw [diagonal_apply, diagonal_apply]
  apply Finset.sum_lt_sum
  · intro j _
    have hexp : Real.exp (-(evals (Fin.castLE hn j) * t k2)) ≤
        Real.exp (-(evals (Fin.castLE hn j) * t k1)) := by
      apply Real.exp_le_exp.mpr
      have := mul_le_mul_of_nonneg_left h12.le (hnonneg (Fin.castLE hn j))
      linarith
    exact mul_le_mul_of_nonneg_left hexp (sq_nonneg _)
  · refine ⟨j0, Finset.mem_univ _, ?_⟩
    have hexp : Real.exp (-(evals (Fin.castLE hn j0) * t k2)) <
        Real.exp (-(evals (Fin.castLE hn j0) * t k1)) := by
      apply Real.exp_lt_exp.mpr
      have := mul_lt_mul_of_pos_left h12 hpos
      linarith
    exact mul_lt_mul_of_pos_left hexp (sq_pos_of_ne_zero hne)

/-- Witness for the amended C7 at `X = V = N = n = 1`, `T = 2`,
`t = (1, 2)`, eigenvalue `1` and eigenvector entry `1`. -/
theorem diagonal_strict_decay_witness :
    ((∀ j : Fin 1, (0 : ℝ) ≤ 1) ∧ (0 : ℝ) < 1 + ((0 : Fin 2).val : ℝ) ∧
        (1 + ((0 : Fin 2).val : ℝ)) < 1 + ((1 : Fin 2).val : ℝ)) ∧
      diagonal (fun k : Fin 2 => 1 + (k.val : ℝ)) (fun _ : Fin 1 => (0 : Fin 1))
          (fun _ _ => (1 : ℝ)) (fun _ => (1 : ℝ)) 1 le_rfl 0 1 <
        diagonal (fun k : Fin 2 => 1 + (k.val : ℝ)) (fun _ : Fin 1 => (0 : Fin 1))
          (fun _ _ => (1 : ℝ)) (fun _ => (1 : ℝ)) 1 le_rfl 0 0 :=
  ⟨⟨fun _ => by norm_num, by norm_num, by norm_num⟩,
    diagonal_strict_decay (fun k : Fin 2 => 1 + (k.val : ℝ))
      (fun _ : Fin 1 => (0 : Fin 1)) (fun _ _ => (1 : ℝ)) (fun _ => (1 : ℝ))
      1 le_rfl (fun _ => by norm_num) 0 0 1 (by norm_num) (by norm_num)
      ⟨0, by norm_num, by norm_num⟩⟩

/-- Modelled from the spec: the geometry provider (`TriaMesh`/`TetMesh`,
out of scope) exposes a scalar `avg_edge_length()`; the vertex count
`len(geometry.v)` is the type index `V`. -/
structure Geometry where
  avg_edge_length : ℝ

/-- Modelled from the spec: the external matrix-assembly provider
(`Solver`, out of scope) returns a sparse mass matrix and a sparse
stiffness matrix, both `V × V`, for the given geometry, mass-lumping
flag and anisotropy configuration. -/
structure FemSystem (V : ℕ) where
  mass : Matrix (Fin V) (Fin V) ℝ
  stiffness : Matrix (Fin V) (Fin V) ℝ

/-- Floating-point precision tag of a numpy array.  Machine floats are
modelled as real numbers; the tag records the dtype a vector carries. -/
inductive Prec
  | f32
  | f64
deriving DecidableEq

/-- The two linear-system strategies `diffusion` dispatches between. -/
inductive Strategy
  | cholesky
  | lu
deriving DecidableEq

/-- Observable calls `diffusion` makes to its external collaborators:
`assemble` is the `Solver(geometry, lump=True, aniso=aniso)` matrix
assembly, `solve s rhs` is the factorize-and-solve call of strategy `s`
on right-hand side `rhs` (with its precision tag). -/
inductive Event (V : ℕ)
  | assemble
  | solve (s : Strategy) (rhs : Prec × (Fin V → ℝ))

/-- Error kinds of the module, using the names of the spec: the source
signals `ConfigurationError` via `import_optional_dependency(...,
raise_error=True)`, `ShapeMismatch` via numpy dimension errors, and
`IndexError` via out-of-range fancy indexing.  No code path of the
source produces `domainError` or `factorizationError`; they are listed
because the spec names them. -/
inductive HeatError
  | configurationError
  | shapeMismatch
  | indexError
  | domainError
  | factorizationError
deriving DecidableEq

/-- Translation of `np.float32(b0)`: the cast retags the dtype; the
values (floats modelled as reals) are kept. -/
def npFloat32 {V : ℕ} (b : Prec × (Fin V → ℝ)) : Prec × (Fin V → ℝ) :=
  (Prec.f32, b.2)

/-- Translation of `b0 = np.zeros((nv,)); b0[np.array(vids)] = 1.0`: the
indicator vector of the seed set. -/
def sourceVec (V : ℕ) (vids : List (Fin V)) : Fin V → ℝ :=
  fun i => if i ∈ vids then 1 else 0

/-- Translation of `t = m * geometry.avg_edge_length() ** 2` and
`hmat = fem.mass + t * fem.stiffness`, with the assembly provider as a
parameter. -/
def hmatOf {V : ℕ} (assemble : Unit → FemSystem V) (geometry : Geometry)
    (m : ℝ) : Matrix (Fin V) (Fin V) ℝ :=
  (assemble ()).mass + (m * geometry.avg_edge_length ^ 2) • (assemble ()).stiffness

/-- Translation of `Heat.diffusion`.  The external collaborators are
parameters: `cholmodAvailable` models whether `sksparse` can be
imported, `assemble` the `Solver` call, `cholSolve` and `luSolve` the
two factorization providers (each taking the system matrix and the
right-hand side with its precision tag).  The result pairs the list of
collaborator calls, in order, with the outcome: when `use_cholmod` is
requested and the capability is missing,
`import_optional_dependency("sksparse", raise_error=True)` raises before
anything else happens; otherwise the system is assembled and the
selected strategy is invoked — with `np.float32(b0)` on the LU path and
`b0` unchanged on the Cholesky path, as in the source. -/
def diffusionT (V : ℕ) (cholmodAvailable : Bool) (assemble : Unit → FemSystem V)
    (cholSolve luSolve : Matrix (Fin V) (Fin V) ℝ → Prec × (Fin V → ℝ) → (Fin V → ℝ))
    (geometry : Geometry) (vids : List (Fin V)) (m : ℝ) (use_cholmod : Bool) :
    List (Event V) × Except HeatError (Fin V → ℝ) :=
  if use_cholmod && !cholmodAvailable then
    ([], Except.error HeatError.configurationError)
  else if use_cholmod then
    ([Event.assemble, Event.solve Strategy.cholesky (Prec.f64, sourceVec V vids)],
      Except.ok (cholSolve (hmatOf assemble geometry m) (Prec.f64, sourceVec V vids)))
  else
    ([Event.assemble, Event.solve Strategy.lu (npFloat32 (Prec.f64, sourceVec V vids))],
      Except.ok (luSolve (hmatOf assemble geometry m)
        (npFloat32 (Prec.f64, sourceVec V vids))))

/-- Claim C3: for positive `m` and non-empty `vids`, and assuming the
selected factorization provider returns the exact solution of its system
(spec contract `H·x ≈ b`, exactness standing in for solver tolerance),
`diffusion` returns a vector `x` of length `V` with `H.mulVec x = b0`,
where `H = mass + (m * avg_edge_length ^ 2) • stiffness` and `b0` is the
indicator vector of `vids`. -/
theorem diffusion_solves_system (V : ℕ) (cholmodAvailable : Bool)
    (assemble : Unit → FemSystem V)
    (cholSolve luSolve : Matrix (Fin V) (Fin V) ℝ → Prec × (Fin V → ℝ) → (Fin V → ℝ))
    (geometry : Geometry) (vids : List (Fin V)) (m : ℝ) (use_cholmod : Bool)
    (havail : use_cholmod = true → cholmodAvailable = true)
    (hm : 0 < m) (hv : vids ≠ [])
    (hchol : (hmatOf assemble geometry m).mulVec
        (cholSolve (hmatOf assemble geometry m) (Prec.f64, sourceVec V vids)) =
      sourceVec V vids)
    (hlu : (hmatOf assemble geometry m).mulVec
        (luSolve (hmatOf assemble geometry m) (npFloat32 (Prec.f64, sourceVec V vids))) =
      sourceVec V vids) :
    ∃ x : Fin V → ℝ,
      (diffusionT V cholmodAvailable assemble cholSolve luSolve geometry vids m
          use_cholmod).2 = Except.ok x ∧
        (hmatOf assemble geometry m).mulVec x = sourceVec V vids := by
  cases use_cholmod with
  | false =>
      exact ⟨luSolve (hmatOf assemble geometry m)
          (npFloat32 (Prec.f64, sourceVec V vids)), by simp [diffusionT], hlu⟩
  | true =>
      have hav : cholmodAvailable = true := havail rfl
      subst hav
      exact ⟨cholSolve (hmatOf assemble geometry m) (Prec.f64, sourceVec V vids),
        by simp [diffusionT], hchol⟩

/-- Witness for C3 at `V = 1` on the LU path, with mass `1`, stiffness
`0`, unit edge length, and a provider returning the right-hand side
itself (exact for this system). -/
theorem diffusion_solves_system_witness :
    ((0 : ℝ) < 1 ∧ ([(0 : Fin 1)] : List (Fin 1)) ≠ []) ∧
      ∃ x : Fin 1 → ℝ,
        (diffusionT 1 true (fun _ => ⟨fun _ _ => 1, fun _ _ => 0⟩)
            (fun _ b => b.2) (fun _ b => b.2) ⟨1⟩ [(0 : Fin 1)] 1 false).2 =
          Except.ok x ∧
          (hmatOf (fun _ => (⟨fun _ _ => 1, fun _ _ => 0⟩ : FemSystem 1)) ⟨1⟩ 1).mulVec x =
            sourceVec 1 [(0 : Fin 1)] :=
  ⟨⟨by norm_num, by simp⟩,
    diffusion_solves_system 1 true (fun _ => ⟨fun _ _ => 1, fun _ _ => 0⟩)
      (fun _ b => b.2) (fun _ b => b.2) ⟨1⟩ [(0 : Fin 1)] 1 false
      (fun h => by simp at h) (by norm_num) (by simp)
      (by
        funext i
        have hi : i = 0 := Subsingleton.elim i 0
        subst hi
        simp [hmatOf, Matrix.mulVec, Matrix.dotProduct, sourceVec,
          Matrix.add_apply, Matrix.smul_apply])
      (by
        funext i
        have hi : i = 0 := Subsingleton.elim i 0
        subst hi
        simp [hmatOf, npFloat32, Matrix.mulVec, Matrix.dotProduct, sourceVec,
          Matrix.add_apply, Matrix.smul_apply])⟩

/-- Claim C5: when the Cholesky strategy is requested and the optional
sparse-Cholesky capability is unavailable, `diffusion` fails with the
configuration error and its collaborator-call trace is empty — in
particular the mass/stiffness assembly is never invoked. -/
theorem diffusion_cholmod_unavailable_fails_fast (V : ℕ)
    (assemble : Unit → FemSystem V)
    (cholSolve luSolve : Matrix (Fin V) (Fin V) ℝ → Prec × (Fin V → ℝ) → (Fin V → ℝ))
    (geometry : Geometry) (vids : List (Fin V)) (m : ℝ) :
    diffusionT V false assemble cholSolve luSolve geometry vids m true =
      ([], Except.error HeatError.configurationError) := by
  simp [diffusionT]

/-- Claim C9: the right-hand side handed to the factorization provider
is `np.float32(b0)` on the LU path but `b0` at its original double
precision on the Cholesky path — the same source vector
`sourceVec V vids` under two different precisions. -/
theorem diffusion_precision_asymmetry (V : ℕ) (assemble : Unit → FemSystem V)
    (cholSolve luSolve : Matrix (Fin V) (Fin V) ℝ → Prec × (Fin V → ℝ) → (Fin V → ℝ))
    (geometry : Geometry) (vids : List (Fin V)) (m : ℝ) :
    (diffusionT V true assemble cholSolve luSolve geometry vids m false).1 =
        [Event.assemble, Event.solve Strategy.lu (Prec.f32, sourceVec V vids)] ∧
      (diffusionT V true assemble cholSolve luSolve geometry vids m true).1 =
        [Event.assemble, Event.solve Strategy.cholesky (Prec.f64, sourceVec V vids)] := by
  constructor <;> simp [diffusionT, npFloat32]

/-- Counterexample to claim C8 as stated: with an empty seed set (and a
perfectly ordinary mesh and `m = 1`), `diffusion` does not raise a
`DomainError`; it runs the LU solve and returns its output. -/
theorem diffusion_no_domain_check_cex :
    (diffusionT 1 true (fun _ => ⟨fun _ _ => 1, fun _ _ => 0⟩)
        (fun _ _ _ => (0 : ℝ)) (fun _ _ _ => (0 : ℝ)) ⟨1⟩ [] 1 false).2 =
      Except.ok (fun _ => (0 : ℝ)) := by
  simp [diffusionT]

/-- Claim C8, amended: `diffusion` performs no domain-precondition
validation at all — for every `m` (including non-positive values), every
`vids` (including the empty list) and every geometry (including zero
average edge length), the LU path and the available-Cholesky path both
return the output of the selected provider, and no `DomainError` is ever
raised. -/
theorem diffusion_no_domain_validation (V : ℕ) (cholmodAvailable : Bool)
    (assemble : Unit → FemSystem V)
    (cholSolve luSolve : Matrix (Fin V) (Fin V) ℝ → Prec × (Fin V → ℝ) → (Fin V → ℝ))
    (geometry : Geometry) (vids : List (Fin V)) (m : ℝ) :
    (diffusionT V cholmodAvailable assemble cholSolve luSolve geometry vids m
        false).2 =
      Except.ok (luSolve (hmatOf assemble geometry m)
        (npFloat32 (Prec.f64, sourceVec V vids))) ∧
    (diffusionT V true assemble cholSolve luSolve geometry vids m true).2 =
      Except.ok (cholSolve (hmatOf assemble geometry m)
        (Prec.f64, sourceVec V vids)) := by
  constructor <;> simp [diffusionT]

/-- Dot product of two lists, the numpy inner product along the shared
axis (the lists are assumed equal length where it is used). -/
def dotList (u v : List ℝ) : ℝ :=
  (List.zipWith (fun a b => a * b) u v).sum

/-- Column `k` of a list-of-rows matrix. -/
def colAt (B : List (List ℝ)) (k : ℕ) : List ℝ :=
  B.map (fun r => r.getD k 0)

/-- Number of columns of a list-of-rows matrix (length of its first
row). -/
def numColsOf (B : List (List ℝ)) : ℕ :=
  (B.headD []).length

/-- Operational `np.matmul` on list-of-rows matrices: fails with the
dimension-mismatch error when the inner dimensions disagree, otherwise
produces the product. -/
def npMatmul (A B : List (List ℝ)) : Except HeatError (List (List ℝ)) :=
  if A.all (fun r => r.length == B.length) then
    Except.ok (A.map (fun r => (List.range (numColsOf B)).map (fun k => dotList r (colAt B k))))
  else
    Except.error HeatError.shapeMismatch

/-- Operational fancy row indexing `A[x, :]`: fails with the numpy
out-of-bounds index error when some index is out of range. -/
def npIndexRows (A : List (List ℝ)) : List ℕ → Except HeatError (List (List ℝ))
  | [] => Except.ok []
  | i :: rest =>
    match A[i]? with
    | none => Except.error HeatError.indexError
    | some r =>
      match npIndexRows A rest with
      | Except.error e => Except.error e
      | Except.ok rows => Except.ok (r :: rows)

/-- Operational translation of `Heat.diagonal` keeping the numpy
behaviour: the slice `[0:n]` is `List.take n`, which silently clips at
the array length instead of failing, fancy indexing checks bounds, and
the final `np.matmul` checks the inner dimensions. -/
noncomputable def diagonalNp (t : List ℝ) (x : List ℕ) (evecs : List (List ℝ))
    (evals : List ℝ) (n : ℕ) : Except HeatError (List (List ℝ)) :=
  match npIndexRows evecs x with
  | Except.error e => Except.error e
  | Except.ok rows =>
    npMatmul (rows.map (fun r => (r.take n).map (fun a => a * a)))
      ((evals.take n).map (fun lam => t.map (fun tk => Real.exp (-(lam * tk)))))

/-- The numpy elementwise product of a 2-D array `A` (shape `(n, T)`
with `T = numColsOf A`) with a 1-D array `w` (shape `(m,)`): numpy
aligns `w` with the LAST axis of `A`, so the shapes are compatible
exactly when `T = m`, `T = 1` or `m = 1`; the result has `max T m`
columns and a size-one axis is repeated.  Otherwise numpy raises a
broadcast error. -/
def npMulRow1D (A : List (List ℝ)) (w : List ℝ) : Except HeatError (List (List ℝ)) :=
  if numColsOf A = w.length ∨ numColsOf A = 1 ∨ w.length = 1 then
    Except.ok (A.map (fun r =>
      (List.range (max (numColsOf A) w.length)).map (fun k =>
        r.getD (if numColsOf A = 1 then 0 else k) 0 *
          w.getD (if w.length = 1 then 0 else k) 0)))
  else
    Except.error HeatError.shapeMismatch

/-- Operational translation of `Heat.kernel` keeping the numpy
behaviour, with `t` the documented row vector of times (shape `(1, T)`,
the same convention as `diagonalNp`; passing several times as a 1-D
array instead fails already inside `np.matmul(-evals[0:n], t)`, whose
inner dimensions are then `1` against `T`, so the multi-time failure is
not an artifact of this convention).  The row lookup `evecs[vfix, 0:n]`
checks bounds and clips, the exponential matrix is `(n, T)` exactly as
in `diagonalNp`, the elementwise product broadcasts the `(n,)`-shaped
fixed-vertex row along the last axis via `npMulRow1D`, and the final
`np.matmul` checks the inner dimensions. -/
noncomputable def kernelNp (t : List ℝ) (vfix : ℕ) (evecs : List (List ℝ))
    (evals : List ℝ) (n : ℕ) : Except HeatError (List (List ℝ)) :=
  match evecs[vfix]? with
  | none => Except.error HeatError.indexError
  | some vrow =>
    match npMulRow1D
        ((evals.take n).map (fun lam => t.map (fun tk => Real.exp (-(lam * tk)))))
        (vrow.take n) with
    | Except.error e => Except.error e
    | Except.ok C => npMatmul (evecs.map (fun r => r.take n)) C

/-- Whether a fallible numpy computation succeeded. -/
def isOkE {ε α : Type _} (e : Except ε α) : Bool :=
  match e with
  | Except.ok _ => true
  | Except.error _ => false

/-- Claim C2 evaluated at a failing input (code bug): with two time
values `t = [1, 2]` (the documented row vector of times), a `3 × 3`
identity eigenvector matrix, eigenvalues `[0, 1, 2]` and full truncation
order `n = 3`, `kernel` does not return the claimed `V × 2` matrix of
values `∑ j, exp (-(evals j * t k)) * evecs p j * evecs vfix j` — the
elementwise product broadcasts the `(3,)`-shaped `evecs[vfix, 0:3]`
against the last axis of the `(3, 2)` exponential matrix, and the call
fails with the numpy broadcast error. -/
theorem kernel_multitime_broadcast_bug :
    kernelNp [1, 2] 0 [[1, 0, 0], [0, 1, 0], [0, 0, 1]] [(0 : ℝ), 1, 2] 3 =
      Except.error HeatError.shapeMismatch := by
  rfl

/-- Claim C6 evaluated at a failing input (code bug): with two time
values, `diagonal` at `x = [1]` succeeds and returns its `1 × 2` row,
while `kernel` at `vfix = x 0 = 1` fails with the broadcast error, so
row `x 0` of `kernel` cannot equal row `0` of `diagonal` as the claim
requires.  At `T = n` the product succeeds instead but scales column `k`
by `evecs vfix k`, again differing from `diagonal`; the
reorder-invariance half of the claim is unaffected (row `i` of
`diagonalNp` depends on `x` only through its entry `x i`). -/
theorem diagonal_kernel_consistency_bug :
    isOkE (diagonalNp [1, 2] [1] [[1, 0, 0], [0, 1, 0], [0, 0, 1]]
        [(0 : ℝ), 1, 2] 3) = true ∧
      kernelNp [1, 2] 1 [[1, 0, 0], [0, 1, 0], [0, 0, 1]] [(0 : ℝ), 1, 2] 3 =
        Except.error HeatError.shapeMismatch := by
  constructor <;> rfl

end LapyHeat
